import Mathlib

/-
Verification of the pypdfdeck core against its specification.

The embedding covers the two source files:
* `pdfpc.py` — the `Repeater` key-repeat state machine and the `Cursor`
  controller.  Python floats are modelled by exact rationals (ℚ), stateful
  methods by explicit state passing.
* `rasterizer.py` — the resize-aware rasterization worker
  (`_rasterize_worker`) and the `ThreadedRasterizer` facade.  The worker's
  queue interaction is modelled by a schedule: the list of items each
  queue-drain point finds pending.  A Python exception (IndexError /
  TypeError) is modelled by `none` / a dedicated `crashed` outcome.
-/

namespace Pdfdeck

/-- Key-repeat states: the `UP`, `HOLD`, `FIRE` constants of pdfpc.py. -/
inductive RState
  | UP
  | HOLD
  | FIRE
deriving DecidableEq, Repr

/-- `REPEAT_TRIGGER = 0.4` from pdfpc.py. -/
def REPEAT_TRIGGER : ℚ := 2/5

/-- `REPEAT_INTERVAL = 0.1` from pdfpc.py. -/
def REPEAT_INTERVAL : ℚ := 1/10

/-- State of `class Repeater`: fields `self.state` and `self.stopwatch`. -/
structure Repeater where
  state : RState
  stopwatch : ℚ
deriving DecidableEq, Repr

/-- `Repeater.__init__`: state `UP`, stopwatch `-1000000000000`. -/
def Repeater.init : Repeater := ⟨RState.UP, -1000000000000⟩

/-- The `while self.stopwatch > REPEAT_INTERVAL: fires += 1; self.stopwatch -=
REPEAT_INTERVAL` loop of `Repeater._countdown`, as a function of the stopwatch
value; returns (fires, final stopwatch). -/
def countdownAux (s : ℚ) : ℕ × ℚ :=
  if REPEAT_INTERVAL < s then
    ((countdownAux (s - REPEAT_INTERVAL)).1 + 1, (countdownAux (s - REPEAT_INTERVAL)).2)
  else (0, s)
termination_by (⌈s * 10⌉).toNat
decreasing_by
  all_goals
    rename_i h
    have h10 : (1 : ℚ) < s * 10 := by
      have hh : (1 : ℚ)/10 < s := h
      linarith
    have hc2 : (2 : ℤ) ≤ ⌈s * 10⌉ := by
      have h1 : (1 : ℤ) < ⌈s * 10⌉ := by
        rw [Int.lt_ceil]
        exact_mod_cast h10
      omega
    have hsub : (s - REPEAT_INTERVAL) * 10 = s * 10 - 1 := by
      show (s - 1/10) * 10 = s * 10 - 1
      ring
    have hceil : ⌈(s - REPEAT_INTERVAL) * 10⌉ = ⌈s * 10⌉ - 1 := by
      rw [hsub]
      exact_mod_cast Int.ceil_sub_one (s * 10)
    omega

/-- `Repeater.tick(dt, is_down)`: one time interval; returns the new state and
the number of repeats fired during the interval. -/
def Repeater.tick (r : Repeater) (dt : ℚ) (is_down : Bool) : Repeater × ℕ :=
  if is_down then
    match r.state with
    | RState.UP => (⟨RState.HOLD, dt⟩, 1)
    | RState.HOLD =>
      if r.stopwatch + dt < REPEAT_TRIGGER then
        (⟨RState.HOLD, r.stopwatch + dt⟩, 0)
      else
        (⟨RState.FIRE, (countdownAux (r.stopwatch + dt - REPEAT_TRIGGER)).2⟩,
          1 + (countdownAux (r.stopwatch + dt - REPEAT_TRIGGER)).1)
    | RState.FIRE =>
      (⟨RState.FIRE, (countdownAux (r.stopwatch + dt)).2⟩, (countdownAux (r.stopwatch + dt)).1)
  else (⟨RState.UP, r.stopwatch⟩, 0)

/-- Repeatedly tick a `Repeater` with the key held down, one call per listed
`dt`; returns the final state and the total number of fires. -/
def runHeld (r : Repeater) : List ℚ → Repeater × ℕ
  | [] => (r, 0)
  | d :: ds =>
    ((runHeld (r.tick d true).1 ds).1, (r.tick d true).2 + (runHeld (r.tick d true).1 ds).2)

/-- State of `class Cursor`: two `Repeater`s, the cursor value and `nslides`.
Python integers are modelled by ℤ. -/
structure Cursor where
  rev : Repeater
  fwd : Repeater
  cursor : ℤ
  nslides : ℤ
deriving DecidableEq, Repr

/-- `Cursor.__init__(nslides)`: fresh repeaters, cursor 0. -/
def Cursor.init (nslides : ℤ) : Cursor := ⟨Repeater.init, Repeater.init, 0, nslides⟩

/-- `Cursor.tick(dt, reverse, forward)`: returns the new state and whether the
cursor changed.  Mirrors the source order: the both-held early return, then
`cursor -= rev.tick(dt, reverse)`, `cursor += fwd.tick(dt, forward)`,
`cursor = min(cursor, nslides - 1)`, `cursor = max(cursor, 0)`. -/
def Cursor.tick (c : Cursor) (dt : ℚ) (reverse forward : Bool) : Cursor × Bool :=
  if reverse && forward then (c, false)
  else
    (⟨(c.rev.tick dt reverse).1, (c.fwd.tick dt forward).1,
        max (min (c.cursor - ((c.rev.tick dt reverse).2 : ℤ) + ((c.fwd.tick dt forward).2 : ℤ))
          (c.nslides - 1)) 0, c.nslides⟩,
      decide (max (min (c.cursor - ((c.rev.tick dt reverse).2 : ℤ)
          + ((c.fwd.tick dt forward).2 : ℤ)) (c.nslides - 1)) 0 ≠ c.cursor))

/-- Run `Cursor.tick` over a list of `(dt, reverse, forward)` samples; returns
the final state and the list of per-tick return values. -/
def runCursor (c : Cursor) : List (ℚ × Bool × Bool) → Cursor × List Bool
  | [] => (c, [])
  | x :: rest =>
    ((runCursor (c.tick x.1 x.2.1 x.2.2).1 rest).1,
      (c.tick x.1 x.2.1 x.2.2).2 :: (runCursor (c.tick x.1 x.2.1 x.2.2).1 rest).2)

/-- Start state of the end-to-end scenario C9: `nslides = 5`, cursor at 2,
both repeaters fresh. -/
def c9start : Cursor := ⟨Repeater.init, Repeater.init, 2, 5⟩

end Pdfdeck

namespace Raster

/-- A decoded page image (rasterizer.py).  `page` is the 1-based page number it
was decoded from, `size` the requested render size, and `zeroed` whether every
pixel has been mapped to zero intensity (`PIL.Image.point` with an all-zero
lookup table).  Fresh decodes have `zeroed = false`. -/
structure Img where
  page : ℕ
  size : Option ℚ × Option ℚ
  zeroed : Bool
deriving DecidableEq, Repr

/-- `_winsize2rasterargs(window_size, aspect)`: keep the constraining dimension,
replace the other by `None`. -/
def winsize2rasterargs (window_size : ℚ × ℚ) (aspect : ℚ) : Option ℚ × Option ℚ :=
  if aspect ≤ window_size.1 / window_size.2 then (none, some window_size.2)
  else (some window_size.1, none)

/-- `CHUNK = 32` from `_rasterize_worker`. -/
def CHUNK : ℕ := 32

/-- Modelled external decode call
`pdf2image.convert_from_path(pdfpath, size=sz, first_page=first, last_page=last)`
(spec section 6: opaque batch decode, returns images in request order): the
document has `npages` pages, so pages `first .. min last npages` come back. -/
def convertChunk (npages : ℕ) (sz : Option ℚ × Option ℚ) (first last : ℕ) : List Img :=
  (List.range' first (min last npages + 1 - first)).map fun p => ⟨p, sz, false⟩

/-- Loop state of `_rasterize_worker`: current window size, derived image size,
next 1-based page to rasterize, and the images list (`None` = not yet
rendered). -/
structure WState where
  windowSize : ℚ × ℚ
  imageSize : Option ℚ × Option ℚ
  page : ℕ
  images : List (Option Img)
deriving DecidableEq, Repr

/-- An item on the resize queue: `some (w, h)` is a resize event, `none` the
stop sentinel enqueued by `shutdown()`. -/
abbrev QItem := Option (ℚ × ℚ)

/-- The worker's drain loop (`while True: size_queue.get(timeout=0.1) ...`),
applied to the list of items pending at this drain point: each size adopts the
new `window_size` / `image_size` and restarts `page = 1`; a sentinel makes the
worker return (`none`). -/
def drainQ (a : ℚ) : WState → List QItem → Option WState
  | s, [] => some s
  | _, none :: _ => none
  | s, some ws :: rest => drainQ a ⟨ws, winsize2rasterargs ws a, 1, s.images⟩ rest

/-- The per-chunk store loop `for i, img in enumerate(chunk): images[page - 1] =
img; page += 1`; `none` models the `IndexError` raised when `page - 1` is out of
bounds of the images list. -/
def writeChunk : List (Option Img) → ℕ → List Img → Option (List (Option Img) × ℕ)
  | imgs, page, [] => some (imgs, page)
  | imgs, page, img :: rest =>
    if page - 1 < imgs.length then writeChunk (imgs.set (page - 1) (some img)) (page + 1) rest
    else none

/-- One iteration body of the worker loop after the drain: publish / idle when
`page == pagelimit + 1`, otherwise decode and store one chunk.  Returns the new
state and the published image set if a callback was invoked; `none` models an
uncaught exception (`images[-1]` on an empty list, or an out-of-bounds store). -/
def body (npages pl : ℕ) (s : WState) : Option (WState × Option (List (Option Img))) :=
  if s.page = pl + 1 then
    match s.images.getLast? with
    | none => none
    | some none => some (s, none)
    | some (some _) =>
      some (⟨s.windowSize, s.imageSize, s.page, List.replicate pl none⟩, some s.images)
  else
    match writeChunk s.images s.page (convertChunk npages s.imageSize s.page (s.page + CHUNK - 1)) with
    | none => none
    | some (imgs, p) => some (⟨s.windowSize, s.imageSize, p, imgs⟩, none)

/-- How a finite worker run ends: still looping in state `s`, returned after
seeing the stop sentinel, or died with an uncaught exception. -/
inductive RunEnd
  | ok (s : WState)
  | stopped
  | crashed
deriving DecidableEq, Repr

/-- Run the worker loop, one iteration per schedule entry; each entry lists the
queue items found pending at that iteration's drain point.  Collects the
published image sets in order. -/
def run (npages pl : ℕ) (a : ℚ) : WState → List (List QItem) → List (List (Option Img)) × RunEnd
  | s, [] => ([], RunEnd.ok s)
  | s, arr :: rest =>
    match drainQ a s arr with
    | none => ([], RunEnd.stopped)
    | some s1 =>
      match body npages pl s1 with
      | none => ([], RunEnd.crashed)
      | some (s2, pub) =>
        (pub.toList ++ (run npages pl a s2 rest).1, (run npages pl a s2 rest).2)

/-- Worker state right after the initial blocking `size_queue.get()` returned
window size `ws`: `page = 1`, all images pending. -/
def initialState (pl : ℕ) (a : ℚ) (ws : ℚ × ℚ) : WState :=
  ⟨ws, winsize2rasterargs ws a, 1, List.replicate pl none⟩

/-- Outcome of the worker's startup blocking `get`: if the first item ever
received is the stop sentinel `None`, the unpacking `width, height =
window_size` in `_winsize2rasterargs` raises `TypeError` and the thread dies
(`crashed`); a size starts the loop. -/
inductive InitOut
  | crashed
  | ready (s : WState)
deriving DecidableEq, Repr

/-- `_rasterize_worker` up to the top of its loop, as a function of the first
queue item. -/
def workerInit (pl : ℕ) (a : ℚ) : Option (ℚ × ℚ) → InitOut
  | none => InitOut.crashed
  | some ws => InitOut.ready (initialState pl a ws)

/-- The fully rendered image set for size `sz`: page `i + 1` at slot `i`. -/
def fullSet (pl : ℕ) (sz : Option ℚ × Option ℚ) : List (Option Img) :=
  (List.range pl).map fun i => some ⟨i + 1, sz, false⟩

/-- Render-progress invariant: slots before `page - 1` hold the page rendered
at the current image size. -/
def Filled (s : WState) : Prop :=
  ∀ i, i < s.page - 1 → s.images[i]? = some (some ⟨i + 1, s.imageSize, false⟩)

/-- Worker loop invariant. -/
def Inv (pl : ℕ) (s : WState) : Prop :=
  s.images.length = pl ∧ 1 ≤ s.page ∧ s.page ≤ pl + 1 ∧
    (Filled s ∨ (s.page = pl + 1 ∧ s.images = List.replicate pl none))

/-- A well-formed published image set: length `pl`, slot `i` holds page `i + 1`
rendered at the single size `sz` (in particular no placeholder remains). -/
def GoodSet (pl : ℕ) (sz : Option ℚ × Option ℚ) (set : List (Option Img)) : Prop :=
  set.length = pl ∧ ∀ i, i < pl → set[i]? = some (some ⟨i + 1, sz, false⟩)

/-- Shared state of `ThreadedRasterizer`: `self.images` and `self.black`,
each `None` until the first publish. -/
structure TState where
  images : Option (List Img)
  black : Option Img
deriving DecidableEq, Repr

/-- `ThreadedRasterizer.__init__`: no image set published yet. -/
def TState.initial : TState := ⟨none, none⟩

/-- `img.point([0] * (256 * 3))`: same dimensions, all intensities zero. -/
def pointZero (i : Img) : Img := ⟨i.page, i.size, true⟩

/-- `ThreadedRasterizer.images_done(images)`: store the new image set and
regenerate the black image from `images[0]`; `none` models the `IndexError` on
an empty list.  The previous state is discarded wholesale. -/
def imagesDone (_st : TState) (imgs : List Img) : Option TState :=
  match imgs with
  | [] => none
  | i0 :: _ => some ⟨some imgs, some (pointZero i0)⟩

/-- `ThreadedRasterizer.get(index)`: `None` before the first publish, the
stored image for `0 <= index < len(images)`, the black image otherwise. -/
def TState.get (st : TState) (index : ℤ) : Option Img :=
  match st.images with
  | none => none
  | some imgs =>
    if 0 ≤ index ∧ index < (imgs.length : ℤ) then imgs[index.toNat]? else st.black

end Raster

namespace Pdfdeck

theorem toNat_cast_q (a : ℤ) (h : 0 ≤ a) : ((a.toNat : ℕ) : ℚ) = (a : ℚ) := by
  exact_mod_cast congrArg (fun z : ℤ => (z : ℚ)) (Int.toNat_of_nonneg h)

theorem countdownAux_eq (s : ℚ) :
    countdownAux s = ((⌈s * 10⌉ - 1).toNat, s - ((⌈s * 10⌉ - 1).toNat : ℚ) / 10) := by
  generalize hn : (⌈s * 10⌉).toNat = n
  induction n using Nat.strong_induction_on generalizing s with
  | _ n ih =>
    rw [countdownAux]
    split_ifs with h
    · have h10 : (1 : ℚ) < s * 10 := by
        have hh : (1 : ℚ)/10 < s := h
        linarith
      have hc2 : (2 : ℤ) ≤ ⌈s * 10⌉ := by
        have h1 : (1 : ℤ) < ⌈s * 10⌉ := by
          rw [Int.lt_ceil]
          exact_mod_cast h10
        omega
      have hsub : (s - REPEAT_INTERVAL) * 10 = s * 10 - 1 := by
        show (s - 1/10) * 10 = s * 10 - 1
        ring
      have hceil : ⌈(s - REPEAT_INTERVAL) * 10⌉ = ⌈s * 10⌉ - 1 := by
        rw [hsub]
        exact_mod_cast Int.ceil_sub_one (s * 10)
      have hlt : (⌈(s - REPEAT_INTERVAL) * 10⌉).toNat < n := by omega
      rw [ih _ hlt _ rfl]
      refine Prod.ext ?_ ?_
      · show (⌈(s - REPEAT_INTERVAL) * 10⌉ - 1).toNat + 1 = (⌈s * 10⌉ - 1).toNat
        omega
      · show (s - REPEAT_INTERVAL) - ((⌈(s - REPEAT_INTERVAL) * 10⌉ - 1).toNat : ℚ) / 10
              = s - ((⌈s * 10⌉ - 1).toNat : ℚ) / 10
        have e1 : ((⌈(s - REPEAT_INTERVAL) * 10⌉ - 1).toNat : ℚ) = (⌈s * 10⌉ : ℚ) - 2 := by
          rw [hceil, toNat_cast_q (⌈s * 10⌉ - 1 - 1) (by omega)]
          push_cast
          ring
        have e3 : ((⌈s * 10⌉ - 1).toNat : ℚ) = (⌈s * 10⌉ : ℚ) - 1 := by
          rw [toNat_cast_q (⌈s * 10⌉ - 1) (by omega)]
          push_cast
          ring
        rw [e1, e3]
        show (s - 1/10) - ((⌈s * 10⌉ : ℚ) - 2) / 10 = s - ((⌈s * 10⌉ : ℚ) - 1) / 10
        ring
    · have hle : ⌈s * 10⌉ ≤ 1 := by
        rw [Int.ceil_le]
        push_cast
        have hh : s ≤ (1 : ℚ)/10 := not_lt.mp h
        linarith
      have h0 : (⌈s * 10⌉ - 1).toNat = 0 := by omega
      rw [h0]
      refine Prod.ext rfl ?_
      show s = s - ((0 : ℕ) : ℚ) / 10
      norm_num

theorem runHeld_cons (r : Repeater) (d : ℚ) (ds : List ℚ) :
    runHeld r (d :: ds)
      = ((runHeld (r.tick d true).1 ds).1,
          (r.tick d true).2 + (runHeld (r.tick d true).1 ds).2) := rfl

theorem runHeld_append (l1 l2 : List ℚ) (r : Repeater) :
    runHeld r (l1 ++ l2) =
      ((runHeld (runHeld r l1).1 l2).1, (runHeld r l1).2 + (runHeld (runHeld r l1).1 l2).2) := by
  induction l1 generalizing r with
  | nil => simp [runHeld]
  | cons d ds ih =>
    simp only [List.cons_append, runHeld, List.append_eq, ih]
    exact Prod.ext rfl (by dsimp only; omega)

theorem tick_hold_lt {w dt : ℚ} (h : w + dt < REPEAT_TRIGGER) :
    Repeater.tick ⟨RState.HOLD, w⟩ dt true = (⟨RState.HOLD, w + dt⟩, 0) := by
  simp [Repeater.tick, h]

theorem tick_hold_ge {w dt : ℚ} (h : REPEAT_TRIGGER ≤ w + dt) :
    Repeater.tick ⟨RState.HOLD, w⟩ dt true =
      (⟨RState.FIRE, (countdownAux (w + dt - REPEAT_TRIGGER)).2⟩,
        1 + (countdownAux (w + dt - REPEAT_TRIGGER)).1) := by
  simp [Repeater.tick, not_lt.mpr h]

theorem runHeld_hold (ds : List ℚ) (w : ℚ)
    (h : ∀ k, k < ds.length → w + (ds.take (k + 1)).sum < REPEAT_TRIGGER) :
    runHeld ⟨RState.HOLD, w⟩ ds = (⟨RState.HOLD, w + ds.sum⟩, 0) := by
  induction ds generalizing w with
  | nil => simp [runHeld]
  | cons d ds ih =>
    have h0 : w + d < REPEAT_TRIGGER := by
      have := h 0 (by simp)
      simpa using this
    simp only [runHeld, tick_hold_lt h0]
    have hrec := ih (w + d) (fun k hk => by
      have := h (k + 1) (by simpa using Nat.succ_lt_succ hk)
      simpa [add_assoc] using this)
    rw [hrec]
    simp [add_assoc]

theorem runHeld_cross : ∀ (ds : List ℚ) (w : ℚ), ds ≠ [] →
    (∀ k, k + 1 < ds.length → w + (ds.take (k + 1)).sum < REPEAT_TRIGGER) →
    REPEAT_TRIGGER ≤ w + ds.sum →
    runHeld ⟨RState.HOLD, w⟩ ds =
      (⟨RState.FIRE, (countdownAux (w + ds.sum - REPEAT_TRIGGER)).2⟩,
        1 + (countdownAux (w + ds.sum - REPEAT_TRIGGER)).1)
  | [], _, hne, _, _ => absurd rfl hne
  | [d], w, _, _, hT => by
    have hT' : REPEAT_TRIGGER ≤ w + d := by simpa using hT
    simp only [runHeld, tick_hold_ge hT']
    simp
  | d :: d2 :: ds2, w, _, h, hT => by
    have h0 : w + d < REPEAT_TRIGGER := by
      have := h 0 (by simp)
      simpa using this
    have hrec := runHeld_cross (d2 :: ds2) (w + d) (by simp) (fun k hk => by
        have := h (k + 1) (by simpa using Nat.succ_lt_succ hk)
        simpa [add_assoc] using this)
      (by simpa [add_assoc] using hT)
    show ((runHeld ((⟨RState.HOLD, w⟩ : Repeater).tick d true).1 (d2 :: ds2)).1,
        ((⟨RState.HOLD, w⟩ : Repeater).tick d true).2 +
          (runHeld ((⟨RState.HOLD, w⟩ : Repeater).tick d true).1 (d2 :: ds2)).2) = _
    rw [tick_hold_lt h0]
    dsimp only
    rw [hrec]
    simp [add_assoc]

theorem countdown_rem_nonneg {s : ℚ} (hs : 0 ≤ s) : 0 ≤ (countdownAux s).2 := by
  rw [countdownAux_eq]
  rcases le_or_lt ⌈s * 10⌉ 1 with hle | hgt
  · have h0 : (⌈s * 10⌉ - 1).toNat = 0 := by omega
    rw [h0]
    push_cast
    simpa using hs
  · have hc : (0 : ℤ) ≤ ⌈s * 10⌉ - 1 := by omega
    rw [toNat_cast_q _ hc]
    have h1 : ((⌈s * 10⌉ : ℚ) - 1) < s * 10 := by
      have := Int.ceil_lt_add_one (s * 10)
      push_cast at this ⊢
      linarith
    push_cast
    linarith

theorem countdown_rem_le (s : ℚ) : (countdownAux s).2 ≤ REPEAT_INTERVAL := by
  rw [countdownAux_eq]
  rcases le_or_lt ⌈s * 10⌉ 1 with hle | hgt
  · have h0 : (⌈s * 10⌉ - 1).toNat = 0 := by omega
    rw [h0]
    have hs1 : s * 10 ≤ 1 := by
      have := Int.le_ceil (s * 10)
      have hle' : ((⌈s * 10⌉ : ℤ) : ℚ) ≤ 1 := by exact_mod_cast hle
      linarith
    show s - ((0 : ℕ) : ℚ) / 10 ≤ 1/10
    push_cast
    linarith
  · have hc : (0 : ℤ) ≤ ⌈s * 10⌉ - 1 := by omega
    rw [toNat_cast_q _ hc]
    have hs1 : s * 10 ≤ (⌈s * 10⌉ : ℚ) := Int.le_ceil (s * 10)
    show s - ((⌈s * 10⌉ - 1 : ℤ) : ℚ) / 10 ≤ 1/10
    push_cast
    linarith

theorem countdown_split (u v : ℚ) (hv : 0 ≤ v) :
    (countdownAux u).1 + (countdownAux ((countdownAux u).2 + v)).1 = (countdownAux (u + v)).1 ∧
    (countdownAux ((countdownAux u).2 + v)).2 = (countdownAux (u + v)).2 := by
  have hmono : ⌈u * 10⌉ ≤ ⌈(u + v) * 10⌉ := Int.ceil_le_ceil (by nlinarith)
  rcases le_or_lt ⌈u * 10⌉ 1 with hle | hgt
  · have h0 : (⌈u * 10⌉ - 1).toNat = 0 := by omega
    have hrem : (countdownAux u).2 = u := by
      rw [countdownAux_eq, h0]
      push_cast
      ring
    have hfst0 : (countdownAux u).1 = 0 := by
      rw [countdownAux_eq]
      exact h0
    rw [hrem, hfst0]
    simp
  · have hc : (0 : ℤ) ≤ ⌈u * 10⌉ - 1 := by omega
    have hrem : (countdownAux u).2 + v = (u + v) - ((⌈u * 10⌉ - 1 : ℤ) : ℚ) / 10 := by
      rw [countdownAux_eq, toNat_cast_q _ hc]
      ring
    have hfst : (countdownAux u).1 = (⌈u * 10⌉ - 1).toNat := by rw [countdownAux_eq]
    have hceq : ⌈((u + v) - ((⌈u * 10⌉ - 1 : ℤ) : ℚ) / 10) * 10⌉ = ⌈(u + v) * 10⌉ - (⌈u * 10⌉ - 1) := by
      have e : ((u + v) - ((⌈u * 10⌉ - 1 : ℤ) : ℚ) / 10) * 10
          = (u + v) * 10 - ((⌈u * 10⌉ - 1 : ℤ) : ℚ) := by
        push_cast
        ring
      rw [e, Int.ceil_sub_int]
    constructor
    · rw [hfst, countdownAux_eq ((countdownAux u).2 + v), countdownAux_eq (u + v), hrem, hceq]
      omega
    · rw [countdownAux_eq ((countdownAux u).2 + v), countdownAux_eq (u + v), hrem, hceq]
      have e1 : ((⌈(u + v) * 10⌉ - (⌈u * 10⌉ - 1) - 1).toNat : ℚ)
          = ((⌈(u + v) * 10⌉ - 1).toNat : ℚ) - ((⌈u * 10⌉ - 1 : ℤ) : ℚ) := by
        rw [toNat_cast_q _ (by omega), toNat_cast_q _ (by omega)]
        push_cast
        ring
      rw [e1]
      ring

theorem runHeld_fire (ds : List ℚ) (h : ∀ x ∈ ds, 0 ≤ x) :
    ∀ w : ℚ, 0 ≤ w → w ≤ REPEAT_INTERVAL →
    runHeld ⟨RState.FIRE, w⟩ ds =
      (⟨RState.FIRE, (countdownAux (w + ds.sum)).2⟩, (countdownAux (w + ds.sum)).1) := by
  induction ds with
  | nil =>
    intro w h0 h1
    have : countdownAux w = (0, w) := by
      rw [countdownAux]
      rw [if_neg (not_lt.mpr h1)]
    simp [runHeld, this]
  | cons d ds ih =>
    intro w h0 h1
    have hd : 0 ≤ d := h d (by simp)
    have hds : ∀ x ∈ ds, 0 ≤ x := fun x hx => h x (by simp [hx])
    have hsum : 0 ≤ ds.sum := List.sum_nonneg hds
    have htick : Repeater.tick ⟨RState.FIRE, w⟩ d true =
        (⟨RState.FIRE, (countdownAux (w + d)).2⟩, (countdownAux (w + d)).1) := rfl
    have hwd : 0 ≤ w + d := by linarith
    have hrec := ih hds (countdownAux (w + d)).2 (countdown_rem_nonneg hwd) (countdown_rem_le _)
    have hsplit := countdown_split (w + d) ds.sum hsum
    simp only [runHeld, htick, hrec]
    rw [List.sum_cons, ← add_assoc]
    exact Prod.ext (congrArg (Repeater.mk RState.FIRE) hsplit.2) hsplit.1

theorem cursor_tick_bounds (c : Cursor) (dt : ℚ) (rv fw : Bool) (hn : 1 ≤ c.nslides)
    (h0 : 0 ≤ c.cursor) (h1 : c.cursor ≤ c.nslides - 1) :
    0 ≤ (c.tick dt rv fw).1.cursor ∧ (c.tick dt rv fw).1.cursor ≤ c.nslides - 1 ∧
      (c.tick dt rv fw).1.nslides = c.nslides := by
  unfold Cursor.tick
  split_ifs with hb
  · exact ⟨h0, h1, rfl⟩
  · refine ⟨le_max_right _ _, max_le (min_le_right _ _) (by omega), rfl⟩

theorem runCursor_bounds (inputs : List (ℚ × Bool × Bool)) :
    ∀ c : Cursor, 1 ≤ c.nslides → 0 ≤ c.cursor → c.cursor ≤ c.nslides - 1 →
    0 ≤ (runCursor c inputs).1.cursor ∧
      (runCursor c inputs).1.cursor ≤ c.nslides - 1 ∧
      (runCursor c inputs).1.nslides = c.nslides := by
  induction inputs with
  | nil => exact fun c hn h0 h1 => ⟨h0, h1, rfl⟩
  | cons x rest ih =>
    intro c hn h0 h1
    obtain ⟨g0, g1, g2⟩ := cursor_tick_bounds c x.1 x.2.1 x.2.2 hn h0 h1
    have := ih (c.tick x.1 x.2.1 x.2.2).1 (by omega) g0 (by omega)
    simp only [runCursor]
    exact ⟨this.1, by omega, by omega⟩

theorem cursor_tick_at_top (c : Cursor) (dt : ℚ) (hn : 1 ≤ c.nslides)
    (hc : c.cursor = c.nslides - 1) :
    (c.tick dt false true).1.cursor = c.nslides - 1 ∧
      (c.tick dt false true).1.nslides = c.nslides ∧ (c.tick dt false true).2 = false := by
  have hrev : c.rev.tick dt false = (⟨RState.UP, c.rev.stopwatch⟩, 0) := rfl
  unfold Cursor.tick
  simp only [Bool.false_and, if_neg Bool.false_ne_true, hrev]
  have hv : max (min (c.cursor - ((0 : ℕ) : ℤ) + ((c.fwd.tick dt true).2 : ℤ)) (c.nslides - 1)) 0
      = c.cursor := by
    have hf : (0 : ℤ) ≤ ((c.fwd.tick dt true).2 : ℤ) := Int.ofNat_nonneg _
    have : min (c.cursor - ((0 : ℕ) : ℤ) + ((c.fwd.tick dt true).2 : ℤ)) (c.nslides - 1)
        = c.nslides - 1 := by
      rw [min_eq_right]
      omega
    rw [this]
    omega
  rw [hv]
  refine ⟨by omega, trivial, by simp⟩

theorem runCursor_at_top (ds : List ℚ) :
    ∀ c : Cursor, 1 ≤ c.nslides → c.cursor = c.nslides - 1 →
    (runCursor c (ds.map fun x => (x, false, true))).1.cursor = c.nslides - 1 ∧
      (runCursor c (ds.map fun x => (x, false, true))).1.nslides = c.nslides ∧
      ∀ b ∈ (runCursor c (ds.map fun x => (x, false, true))).2, b = false := by
  induction ds with
  | nil =>
    intro c hn hc
    refine ⟨hc, rfl, by simp [runCursor]⟩
  | cons d rest ih =>
    intro c hn hc
    obtain ⟨g0, g1, g2⟩ := cursor_tick_at_top c d hn hc
    have hrec := ih (c.tick d false true).1 (by omega) (by omega)
    simp only [List.map_cons, runCursor]
    refine ⟨by omega, by omega, ?_⟩
    intro b hb
    simp only [List.mem_cons] at hb
    rcases hb with hb | hb
    · rw [hb, g2]
    · exact hrec.2.2 b hb

/-- C1 (amended).  Holding a key continuously from the `Released` state, with the
trigger crossed on the second or later tick: no repeat fires before cumulative
held time `T` reaches `REPEAT_TRIGGER` (only the initial press fire); on the
tick that crosses the trigger the total count becomes `1 + max 1 ⌈(T-0.4)/0.1⌉`
(which is `floor((T-0.4)/0.1) + 1` additional fires except when `T - 0.4` is an
exact positive multiple of `0.1`, where one fewer fire occurs because the
countdown loop is strict); the countdown leaves a stopwatch remainder in
`[0, 0.1]` (a remainder of exactly one full interval is possible); continued
holding for further intervals `ds'` adds `⌈(remainder + sum ds')/0.1⌉ - 1`
fires, i.e. one fire per further `0.1` s of held time. -/
theorem c1_amended (d : ℚ) (ds ds' : List ℚ)
    (hne : ds ≠ [])
    (hds' : ∀ x ∈ ds', 0 ≤ x)
    (hpre : ∀ k, k < ds.length → ((d :: ds).take (k + 1)).sum < REPEAT_TRIGGER)
    (hT : REPEAT_TRIGGER ≤ (d :: ds).sum) :
    (runHeld Repeater.init (d :: ds.dropLast)).2 = 1 ∧
    (runHeld Repeater.init (d :: ds)).2 =
      1 + max 1 (⌈((d :: ds).sum - REPEAT_TRIGGER) * 10⌉.toNat) ∧
    (runHeld Repeater.init (d :: ds)).1 =
      ⟨RState.FIRE, ((d :: ds).sum - REPEAT_TRIGGER)
        - ((⌈((d :: ds).sum - REPEAT_TRIGGER) * 10⌉ - 1).toNat : ℚ) / 10⟩ ∧
    0 ≤ (runHeld Repeater.init (d :: ds)).1.stopwatch ∧
    (runHeld Repeater.init (d :: ds)).1.stopwatch ≤ REPEAT_INTERVAL ∧
    (runHeld Repeater.init ((d :: ds) ++ ds')).2 =
      (runHeld Repeater.init (d :: ds)).2 +
        (⌈((runHeld Repeater.init (d :: ds)).1.stopwatch + ds'.sum) * 10⌉ - 1).toNat := by
  have hlen : 0 < ds.length := List.length_pos.mpr hne
  have hstep : ∀ X : List ℚ, runHeld Repeater.init (d :: X)
      = ((runHeld ⟨RState.HOLD, d⟩ X).1, 1 + (runHeld ⟨RState.HOLD, d⟩ X).2) := fun X => rfl
  have hT' : REPEAT_TRIGGER ≤ d + ds.sum := by
    rw [List.sum_cons] at hT
    exact hT
  have hs0 : 0 ≤ d + ds.sum - REPEAT_TRIGGER := by linarith
  have hcross := runHeld_cross ds d hne (fun k hk => by
      have := hpre (k + 1) (by omega)
      rw [List.take_succ_cons, List.sum_cons] at this
      exact this) hT'
  have hfinal : runHeld Repeater.init (d :: ds)
      = (⟨RState.FIRE, (countdownAux (d + ds.sum - REPEAT_TRIGGER)).2⟩,
          1 + (1 + (countdownAux (d + ds.sum - REPEAT_TRIGGER)).1)) := by
    rw [hstep ds, hcross]
  have hcd := countdownAux_eq (d + ds.sum - REPEAT_TRIGGER)
  have hcd1 : (countdownAux (d + ds.sum - REPEAT_TRIGGER)).1
      = (⌈(d + ds.sum - REPEAT_TRIGGER) * 10⌉ - 1).toNat := by rw [hcd]
  have hcd2 : (countdownAux (d + ds.sum - REPEAT_TRIGGER)).2
      = (d + ds.sum - REPEAT_TRIGGER)
        - ((⌈(d + ds.sum - REPEAT_TRIGGER) * 10⌉ - 1).toNat : ℚ) / 10 := by rw [hcd]
  have hhold := runHeld_hold ds.dropLast d (fun k hk => by
    rw [List.length_dropLast] at hk
    have htk : ds.dropLast.take (k + 1) = ds.take (k + 1) := by
      rw [List.dropLast_eq_take, List.take_take, min_eq_left (by omega)]
    rw [htk]
    have := hpre (k + 1) (by omega)
    rw [List.take_succ_cons, List.sum_cons] at this
    exact this)
  refine ⟨?_, ?_, ?_, ?_, ?_, ?_⟩
  · rw [hstep ds.dropLast, hhold]
    rfl
  · rw [hfinal]
    simp only [List.sum_cons]
    rw [hcd1]
    omega
  · rw [hfinal]
    simp only [List.sum_cons]
    exact congrArg (Repeater.mk RState.FIRE) hcd2
  · rw [hfinal]
    exact countdown_rem_nonneg hs0
  · rw [hfinal]
    exact countdown_rem_le _
  · rw [runHeld_append]
    rw [hfinal]
    have hfire := runHeld_fire ds' hds' (countdownAux (d + ds.sum - REPEAT_TRIGGER)).2
      (countdown_rem_nonneg hs0) (countdown_rem_le _)
    show 1 + (1 + (countdownAux (d + ds.sum - REPEAT_TRIGGER)).1)
        + (runHeld ⟨RState.FIRE, (countdownAux (d + ds.sum - REPEAT_TRIGGER)).2⟩ ds').2
      = 1 + (1 + (countdownAux (d + ds.sum - REPEAT_TRIGGER)).1)
        + (⌈((countdownAux (d + ds.sum - REPEAT_TRIGGER)).2 + ds'.sum) * 10⌉ - 1).toNat
    rw [hfire]
    show 1 + (1 + (countdownAux (d + ds.sum - REPEAT_TRIGGER)).1)
        + (countdownAux ((countdownAux (d + ds.sum - REPEAT_TRIGGER)).2 + ds'.sum)).1 = _
    rw [countdownAux_eq ((countdownAux (d + ds.sum - REPEAT_TRIGGER)).2 + ds'.sum)]

/-- C1 counterexample.  Two ticks held, `dt = 0.1` then `dt = 0.4`, so cumulative
`T = 0.5` crosses the trigger on the second tick: the code returns 2 total fires
(the press plus one fire on the trigger tick, since the countdown loop is
strict and leaves the full-interval remainder `0.1` unconsumed), while the
claim's formula `1 + (floor((T - 0.4)/0.1) + 1)` demands 3. -/
theorem c1_cex :
    (runHeld Repeater.init [1/10, 2/5]).2 = 2 ∧
    1 + ((⌊(((1/10 : ℚ) + 2/5) - 2/5) / (1/10)⌋).toNat + 1) = 3 := by
  constructor
  · have hc : countdownAux ((1/10 : ℚ) + 2/5 - REPEAT_TRIGGER) = (0, 1/10) := by
      rw [countdownAux]
      norm_num [REPEAT_TRIGGER, REPEAT_INTERVAL]
    have h2 : Repeater.tick ⟨RState.HOLD, 1/10⟩ (2/5) true = (⟨RState.FIRE, 1/10⟩, 1) := by
      rw [tick_hold_ge (by norm_num [REPEAT_TRIGGER]), hc]
      rfl
    have e1 : Repeater.init.tick ((1:ℚ)/10) true = (⟨RState.HOLD, 1/10⟩, 1) := rfl
    rw [runHeld_cons, e1]
    dsimp only
    rw [runHeld_cons, h2]
    rfl
  · norm_num

/-- C1 witness for `c1_amended`, at `d = 0.1`, `ds = [0.4]`, `ds' = [0.05]`
(cumulative `T = 0.5`). -/
theorem c1_amended_witness :
    ([(2/5 : ℚ)] ≠ []) ∧ (REPEAT_TRIGGER ≤ ((1/10 : ℚ) :: [(2/5 : ℚ)]).sum) ∧
    ((runHeld Repeater.init ((1/10 : ℚ) :: [(2/5 : ℚ)].dropLast)).2 = 1 ∧
    (runHeld Repeater.init ((1/10 : ℚ) :: [(2/5 : ℚ)])).2 =
      1 + max 1 (⌈(((1/10 : ℚ) :: [(2/5 : ℚ)]).sum - REPEAT_TRIGGER) * 10⌉.toNat) ∧
    (runHeld Repeater.init ((1/10 : ℚ) :: [(2/5 : ℚ)])).1 =
      ⟨RState.FIRE, (((1/10 : ℚ) :: [(2/5 : ℚ)]).sum - REPEAT_TRIGGER)
        - ((⌈(((1/10 : ℚ) :: [(2/5 : ℚ)]).sum - REPEAT_TRIGGER) * 10⌉ - 1).toNat : ℚ) / 10⟩ ∧
    0 ≤ (runHeld Repeater.init ((1/10 : ℚ) :: [(2/5 : ℚ)])).1.stopwatch ∧
    (runHeld Repeater.init ((1/10 : ℚ) :: [(2/5 : ℚ)])).1.stopwatch ≤ REPEAT_INTERVAL ∧
    (runHeld Repeater.init (((1/10 : ℚ) :: [(2/5 : ℚ)]) ++ [(1/20 : ℚ)])).2 =
      (runHeld Repeater.init ((1/10 : ℚ) :: [(2/5 : ℚ)])).2 +
        (⌈((runHeld Repeater.init ((1/10 : ℚ) :: [(2/5 : ℚ)])).1.stopwatch
            + [(1/20 : ℚ)].sum) * 10⌉ - 1).toNat) :=
  ⟨by simp, by norm_num [REPEAT_TRIGGER],
    c1_amended (1/10) [2/5] [1/20] (by simp) (by norm_num)
      (by
        intro k hk
        have hk0 : k = 0 := by simpa using hk
        subst hk0
        norm_num [REPEAT_TRIGGER])
      (by norm_num [REPEAT_TRIGGER])⟩

/-- C5: for every Cursor controller with `nslides ≥ 1` and any finite input
sequence with nonnegative `dt`s, after any number of ticks the cursor lies in
`[0, nslides - 1]`; when `nslides = 1` it is always 0. -/
theorem c5_cursor_bounds (n : ℤ) (inputs : List (ℚ × Bool × Bool)) (k : ℕ)
    (hn : 1 ≤ n) (_hdt : ∀ x ∈ inputs, 0 ≤ x.1) :
    0 ≤ (runCursor (Cursor.init n) (inputs.take k)).1.cursor ∧
      (runCursor (Cursor.init n) (inputs.take k)).1.cursor ≤ n - 1 ∧
      (n = 1 → (runCursor (Cursor.init n) (inputs.take k)).1.cursor = 0) := by
  obtain ⟨a, b, c⟩ := runCursor_bounds (inputs.take k) (Cursor.init n) hn le_rfl (by
    show (0 : ℤ) ≤ n - 1
    omega)
  rw [show (Cursor.init n).nslides = n from rfl] at b
  exact ⟨a, b, fun h1 => by omega⟩

/-- C5 witness: `nslides = 1`, one tick with reverse held. -/
theorem c5_cursor_bounds_witness :
    (1 : ℤ) ≤ 1 ∧ (∀ x ∈ [((1 : ℚ), true, false)], 0 ≤ x.1) ∧
    (0 ≤ (runCursor (Cursor.init 1) ([((1 : ℚ), true, false)].take 1)).1.cursor ∧
      (runCursor (Cursor.init 1) ([((1 : ℚ), true, false)].take 1)).1.cursor ≤ 1 - 1 ∧
      ((1 : ℤ) = 1 → (runCursor (Cursor.init 1) ([((1 : ℚ), true, false)].take 1)).1.cursor = 0)) :=
  ⟨by decide, by norm_num,
    c5_cursor_bounds 1 [((1 : ℚ), true, false)] 1 (by decide) (by norm_num)⟩

/-- C6: `Cursor.tick` with both reverse and forward held returns `false` and
leaves the whole state unchanged — cursor, and both repeaters' state and
stopwatch (their `tick` is never invoked on that interval). -/
theorem c6_both_held (c : Cursor) (dt : ℚ) : c.tick dt true true = (c, false) := by
  simp [Cursor.tick]

/-- C9: with `nslides = 5` and the cursor at 2, holding forward for 0.5 s in
`dt = 0.05` steps moves the cursor to 4 (it changes exactly twice: the press
fire and the single repeat fire when the 0.4 s trigger is crossed); continuing
to hold forward for any further tick sequence keeps the cursor clamped at 4 and
every further `tick` call returns `false`. -/
theorem c9_scenario :
    (runCursor c9start (List.replicate 10 ((1/20 : ℚ), false, true))).1.cursor = 4 ∧
    ((runCursor c9start (List.replicate 10 ((1/20 : ℚ), false, true))).2.count true = 2) ∧
    ∀ ds : List ℚ,
      (runCursor (runCursor c9start (List.replicate 10 ((1/20 : ℚ), false, true))).1
          (ds.map fun x => (x, false, true))).1.cursor = 4 ∧
      ∀ b ∈ (runCursor (runCursor c9start (List.replicate 10 ((1/20 : ℚ), false, true))).1
          (ds.map fun x => (x, false, true))).2, b = false := by
  have hc0 : countdownAux (0 : ℚ) = (0, 0) := by
    rw [countdownAux]
    norm_num [REPEAT_INTERVAL]
  have hc1 : countdownAux ((1/20 : ℚ)) = (0, 1/20) := by
    rw [countdownAux]
    norm_num [REPEAT_INTERVAL]
  have hc2 : countdownAux ((1/10 : ℚ)) = (0, 1/10) := by
    rw [countdownAux]
    norm_num [REPEAT_INTERVAL]
  have hrep : List.replicate 10 ((1/20 : ℚ), false, true)
      = [((1/20 : ℚ), false, true), ((1/20 : ℚ), false, true), ((1/20 : ℚ), false, true),
          ((1/20 : ℚ), false, true), ((1/20 : ℚ), false, true), ((1/20 : ℚ), false, true),
          ((1/20 : ℚ), false, true), ((1/20 : ℚ), false, true), ((1/20 : ℚ), false, true),
          ((1/20 : ℚ), false, true)] := rfl
  have hrun : runCursor c9start (List.replicate 10 ((1/20 : ℚ), false, true))
      = (⟨⟨RState.UP, -1000000000000⟩, ⟨RState.FIRE, 1/10⟩, 4, 5⟩,
          [true, false, false, false, false, false, false, true, false, false]) := by
    rw [hrep]
    norm_num [runCursor, Cursor.tick, Repeater.tick, Repeater.init, c9start,
      REPEAT_TRIGGER, REPEAT_INTERVAL, hc0, hc1, hc2]
  refine ⟨by rw [hrun], by rw [hrun]; rfl, ?_⟩
  intro ds
  obtain ⟨ha, hb, hflags⟩ := runCursor_at_top ds
    (⟨⟨RState.UP, -1000000000000⟩, ⟨RState.FIRE, 1/10⟩, 4, 5⟩ : Cursor)
    (by decide) (by decide)
  rw [hrun]
  exact ⟨by rw [ha]; decide, hflags⟩

end Pdfdeck

namespace Raster

theorem drainQ_sentinel (a : ℚ) (post : List QItem) :
    ∀ (pre : List (ℚ × ℚ)) (s : WState), drainQ a s (pre.map some ++ none :: post) = none
  | [], _ => rfl
  | _ :: pre, _s => drainQ_sentinel a post pre _

theorem drainQ_inv (a : ℚ) (pl : ℕ) :
    ∀ (arr : List QItem) (s s' : WState), Inv pl s → drainQ a s arr = some s' → Inv pl s'
  | [], s, s', h, he => by
    rw [drainQ] at he
    cases he
    exact h
  | none :: rest, s, s', h, he => by
    rw [drainQ] at he
    cases he
  | some ws :: rest, s, s', h, he => by
    rw [drainQ] at he
    refine drainQ_inv a pl rest _ s' ?_ he
    refine ⟨h.1, le_refl 1, by show (1 : ℕ) ≤ pl + 1; omega, Or.inl ?_⟩
    intro i hi
    exact absurd (show i < 1 - 1 from hi) (by omega)

theorem writeChunk_bound :
    ∀ (chunk : List Img) (p : ℕ) (imgs : List (Option Img)) (r : List (Option Img) × ℕ),
      1 ≤ p → writeChunk imgs p chunk = some r → chunk ≠ [] →
        p - 1 + chunk.length ≤ imgs.length
  | [], _, _, _, _, _, hne => absurd rfl hne
  | c :: chunk, p, imgs, r, hp, h, _ => by
    rw [writeChunk] at h
    split_ifs at h with hlt
    rcases chunk with _ | ⟨c2, chunk⟩
    · simp only [List.length_cons, List.length_nil]
      omega
    · have hrec := writeChunk_bound (c2 :: chunk) (p + 1) (imgs.set (p - 1) (some c)) r
        (by omega) h (by simp)
      rw [List.length_set] at hrec
      simp only [List.length_cons] at hrec ⊢
      omega

theorem writeChunk_range :
    ∀ (m p : ℕ) (imgs : List (Option Img)) (sz : Option ℚ × Option ℚ),
      1 ≤ p → p - 1 + m ≤ imgs.length →
      ∃ imgs' : List (Option Img),
        writeChunk imgs p ((List.range' p m).map fun q => (⟨q, sz, false⟩ : Img))
            = some (imgs', p + m) ∧
          imgs'.length = imgs.length ∧
          (∀ i, i < p - 1 → imgs'[i]? = imgs[i]?) ∧
          (∀ i, p - 1 ≤ i → i < p - 1 + m → imgs'[i]? = some (some ⟨i + 1, sz, false⟩)) ∧
          (∀ i, p - 1 + m ≤ i → imgs'[i]? = imgs[i]?) := by
  intro m
  induction m with
  | zero =>
    intro p imgs sz hp hb
    exact ⟨imgs, rfl, rfl, fun i _ => rfl, fun i h1 h2 => absurd (lt_of_le_of_lt h1 h2) (by omega),
      fun i _ => rfl⟩
  | succ m ih =>
    intro p imgs sz hp hb
    have hlt : p - 1 < imgs.length := by omega
    have hb' : (p + 1) - 1 + m ≤ (imgs.set (p - 1) (some ⟨p, sz, false⟩)).length := by
      rw [List.length_set]
      omega
    obtain ⟨imgs', heq, hlen, hlo, hmid, hhi⟩ :=
      ih (p + 1) (imgs.set (p - 1) (some ⟨p, sz, false⟩)) sz (by omega) hb'
    refine ⟨imgs', ?_, ?_, ?_, ?_, ?_⟩
    · have e : p + (m + 1) = p + 1 + m := by omega
      rw [List.range'_succ, List.map_cons, writeChunk, if_pos hlt, e, heq]
    · rw [hlen, List.length_set]
    · intro i hi
      rw [hlo i (by omega), List.getElem?_set_ne (by omega)]
    · intro i h1 h2
      rcases eq_or_lt_of_le h1 with h1 | h1
      · subst h1
        rw [hlo (p - 1) (by omega), List.getElem?_set_eq_of_lt (some ⟨p, sz, false⟩) hlt]
        have hpp : p - 1 + 1 = p := by omega
        rw [hpp]
      · exact hmid i (by omega) (by omega)
    · intro i hi
      rw [hhi i (by omega), List.getElem?_set_ne (by omega)]

theorem getLast?_of_filled (pl : ℕ) (s : WState) (hpl : 1 ≤ pl)
    (hlen : s.images.length = pl) (hpage : s.page = pl + 1) (hF : Filled s) :
    s.images.getLast? = some (some ⟨pl, s.imageSize, false⟩) := by
  rw [List.getLast?_eq_getElem?, hlen]
  have hv := hF (pl - 1) (by omega)
  rw [show pl - 1 + 1 = pl by omega] at hv
  exact hv

theorem images_eq_fullSet (pl : ℕ) (s : WState) (hlen : s.images.length = pl)
    (hpage : s.page = pl + 1) (hF : Filled s) : s.images = fullSet pl s.imageSize := by
  apply List.ext_getElem?
  intro n
  rcases lt_or_le n pl with hn | hn
  · rw [hF n (by omega), fullSet, List.getElem?_map, List.getElem?_range hn]
    rfl
  · have h1 : s.images[n]? = none := List.getElem?_eq_none (by omega)
    have h2 : (fullSet pl s.imageSize)[n]? = none := List.getElem?_eq_none (by
      rw [fullSet, List.length_map, List.length_range]
      omega)
    rw [h1, h2]

theorem body_publish (npages pl : ℕ) (s : WState) (hpl : 1 ≤ pl) (hlen : s.images.length = pl)
    (hpage : s.page = pl + 1) (hF : Filled s) :
    body npages pl s
      = some (⟨s.windowSize, s.imageSize, s.page, List.replicate pl none⟩, some s.images) := by
  rw [body, if_pos hpage, getLast?_of_filled pl s hpl hlen hpage hF]

theorem body_idle (npages pl : ℕ) (s : WState) (hpl : 1 ≤ pl) (hpage : s.page = pl + 1)
    (hrep : s.images = List.replicate pl none) : body npages pl s = some (s, none) := by
  have hgl : s.images.getLast? = some none := by
    rw [hrep, List.getLast?_eq_getElem?, List.length_replicate, List.getElem?_replicate,
      if_pos (by omega)]
  rw [body, if_pos hpage, hgl]

theorem chunk_eq_range (npages : ℕ) (sz : Option ℚ × Option ℚ) (first last : ℕ) :
    convertChunk npages sz first last
      = (List.range' first (min last npages + 1 - first)).map fun q => (⟨q, sz, false⟩ : Img) :=
  rfl

theorem body_render (npages pl : ℕ) (s : WState) (_hpl : 1 ≤ pl) (hlen : s.images.length = pl)
    (hp1 : 1 ≤ s.page) (hple : s.page ≤ pl) (hnp : npages = pl) (hF : Filled s) :
    ∃ imgs' : List (Option Img),
      body npages pl s
          = some (⟨s.windowSize, s.imageSize, min (s.page + CHUNK - 1) npages + 1, imgs'⟩, none) ∧
        imgs'.length = pl ∧
        Filled ⟨s.windowSize, s.imageSize, min (s.page + CHUNK - 1) npages + 1, imgs'⟩ := by
  have hCH : CHUNK = 32 := rfl
  have hq1 : s.page ≤ min (s.page + CHUNK - 1) npages := le_min (by omega) (by omega)
  have hq2 : min (s.page + CHUNK - 1) npages ≤ pl := le_trans (min_le_right _ _) (by omega)
  have hbound : s.page - 1 + (min (s.page + CHUNK - 1) npages + 1 - s.page) ≤ s.images.length := by
    rw [hlen]
    omega
  obtain ⟨imgs', heq, hlen', hlo, hmid, hhi⟩ :=
    writeChunk_range (min (s.page + CHUNK - 1) npages + 1 - s.page) s.page s.images
      s.imageSize hp1 hbound
  refine ⟨imgs', ?_, by rw [hlen', hlen], ?_⟩
  · rw [body, if_neg (by omega), chunk_eq_range, heq,
      show s.page + (min (s.page + CHUNK - 1) npages + 1 - s.page)
        = min (s.page + CHUNK - 1) npages + 1 by omega]
  · intro i hi
    replace hi : i < min (s.page + CHUNK - 1) npages + 1 - 1 := hi
    show imgs'[i]? = some (some ⟨i + 1, s.imageSize, false⟩)
    rcases lt_or_le i (s.page - 1) with hcase | hcase
    · rw [hlo i hcase]
      exact hF i hcase
    · exact hmid i hcase (by omega)

theorem body_inv (npages pl : ℕ) (s s2 : WState) (pub : Option (List (Option Img)))
    (hpl : 1 ≤ pl) (h : Inv pl s) (hb : body npages pl s = some (s2, pub)) :
    Inv pl s2 ∧ s2.imageSize = s.imageSize ∧
      ∀ set, pub = some set → GoodSet pl s.imageSize set := by
  obtain ⟨hlen, hp1, hple, hdisj⟩ := h
  by_cases hpage : s.page = pl + 1
  · rcases hdisj with hF | ⟨_, hrep⟩
    · rw [body_publish npages pl s hpl hlen hpage hF] at hb
      cases hb
      refine ⟨⟨List.length_replicate .., le_trans hp1 (le_refl _), hple, Or.inr ⟨hpage, rfl⟩⟩,
        rfl, ?_⟩
      intro set hset
      cases hset
      exact ⟨hlen, fun i hi => hF i (by omega)⟩
    · rw [body_idle npages pl s hpl hpage hrep] at hb
      cases hb
      exact ⟨⟨hlen, hp1, hple, Or.inr ⟨hpage, hrep⟩⟩, rfl, fun set hset => by cases hset⟩
  · have hple2 : s.page ≤ pl := by omega
    have hF : Filled s := by
      rcases hdisj with hF | ⟨hcontr, _⟩
      · exact hF
      · exact absurd hcontr hpage
    rw [body, if_neg hpage] at hb
    rcases hw : writeChunk s.images s.page
        (convertChunk npages s.imageSize s.page (s.page + CHUNK - 1)) with _ | ⟨imgs1, p1⟩
    · rw [hw] at hb
      cases hb
    · rw [hw] at hb
      cases hb
      rcases Nat.eq_zero_or_pos (min (s.page + CHUNK - 1) npages + 1 - s.page) with hm0 | hm0
      · have hcempty : convertChunk npages s.imageSize s.page (s.page + CHUNK - 1) = [] := by
          rw [chunk_eq_range, hm0]
          rfl
        rw [hcempty, writeChunk] at hw
        cases hw
        refine ⟨⟨hlen, hp1, hple2.trans (by omega), Or.inl ?_⟩, rfl, fun set hset => by cases hset⟩
        intro i hi
        exact hF i hi
      · have hchlen : (convertChunk npages s.imageSize s.page (s.page + CHUNK - 1)).length
            = min (s.page + CHUNK - 1) npages + 1 - s.page := by
          rw [chunk_eq_range, List.length_map, List.length_range']
        have hcne : convertChunk npages s.imageSize s.page (s.page + CHUNK - 1) ≠ [] := by
          intro hc
          rw [hc] at hchlen
          simp at hchlen
          omega
        have hband := writeChunk_bound _ s.page s.images (imgs1, p1) hp1 hw hcne
        rw [hchlen] at hband
        obtain ⟨imgs', heq, hlen', hlo, hmid, hhi⟩ :=
          writeChunk_range (min (s.page + CHUNK - 1) npages + 1 - s.page) s.page s.images
            s.imageSize hp1 hband
        rw [chunk_eq_range] at hw
        have hdet := hw.symm.trans heq
        simp only [Option.some.injEq, Prod.mk.injEq] at hdet
        obtain ⟨hA, hB⟩ := hdet
        subst hA
        subst hB
        refine ⟨⟨by rw [hlen', hlen], by show 1 ≤ s.page + _; omega, ?_, Or.inl ?_⟩, rfl,
          fun set hset => by cases hset⟩
        · show s.page + (min (s.page + CHUNK - 1) npages + 1 - s.page) ≤ pl + 1
          omega
        · intro i hi
          replace hi : i < s.page + (min (s.page + CHUNK - 1) npages + 1 - s.page) - 1 := hi
          show imgs1[i]? = some (some ⟨i + 1, s.imageSize, false⟩)
          rcases lt_or_le i (s.page - 1) with hcase | hcase
          · rw [hlo i hcase]
            exact hF i hcase
          · exact hmid i hcase (by omega)

theorem run_cons_eq (npages pl : ℕ) (a : ℚ) (s s1 s2 : WState)
    (pub : Option (List (Option Img))) (arr : List QItem) (rest : List (List QItem))
    (hd : drainQ a s arr = some s1) (hb : body npages pl s1 = some (s2, pub)) :
    run npages pl a s (arr :: rest)
      = (pub.toList ++ (run npages pl a s2 rest).1, (run npages pl a s2 rest).2) := by
  simp only [run, hd, hb]

theorem run_cons_stop (npages pl : ℕ) (a : ℚ) (s : WState) (arr : List QItem)
    (rest : List (List QItem)) (hd : drainQ a s arr = none) :
    run npages pl a s (arr :: rest) = ([], RunEnd.stopped) := by
  simp only [run, hd]

theorem run_cons_crash (npages pl : ℕ) (a : ℚ) (s s1 : WState) (arr : List QItem)
    (rest : List (List QItem)) (hd : drainQ a s arr = some s1)
    (hb : body npages pl s1 = none) :
    run npages pl a s (arr :: rest) = ([], RunEnd.crashed) := by
  simp only [run, hd, hb]

theorem run_good (npages pl : ℕ) (a : ℚ) (hpl : 1 ≤ pl) :
    ∀ (sched : List (List QItem)) (s : WState), Inv pl s →
      ∀ set ∈ (run npages pl a s sched).1, ∃ sz, GoodSet pl sz set
  | [], _, _, _, hset => by
    rw [run] at hset
    simp at hset
  | arr :: rest, s, hInv, set, hset => by
    rcases hd : drainQ a s arr with _ | s1
    · rw [run_cons_stop npages pl a s arr rest hd] at hset
      simp at hset
    · have hInv1 := drainQ_inv a pl arr s s1 hInv hd
      rcases hb : body npages pl s1 with _ | ⟨s2, pub⟩
      · rw [run_cons_crash npages pl a s s1 arr rest hd hb] at hset
        simp at hset
      · obtain ⟨hInv2, _, hgood⟩ := body_inv npages pl s1 s2 pub hpl hInv1 hb
        rw [run_cons_eq npages pl a s s1 s2 pub arr rest hd hb] at hset
        rcases List.mem_append.mp hset with hmem | hmem
        · rcases pub with _ | pubset
          · simp at hmem
          · simp only [Option.toList_some, List.mem_singleton] at hmem
            subst hmem
            exact ⟨s1.imageSize, hgood set rfl⟩
        · exact run_good npages pl a hpl rest s2 hInv2 set hmem

theorem run_idle (npages pl : ℕ) (a : ℚ) (hpl : 1 ≤ pl) :
    ∀ (k : ℕ) (s : WState), s.page = pl + 1 → s.images = List.replicate pl none →
      run npages pl a s (List.replicate k []) = ([], RunEnd.ok s)
  | 0, _, _, _ => rfl
  | k + 1, s, hpage, hrep => by
    have hb := body_idle npages pl s hpl hpage hrep
    rw [List.replicate_succ,
      run_cons_eq npages pl a s s s none [] (List.replicate k []) rfl hb,
      run_idle npages pl a hpl k s hpage hrep]
    rfl

theorem run_render (pl : ℕ) (a : ℚ) (hpl : 1 ≤ pl) :
    ∀ (fuel : ℕ) (s : WState), s.images.length = pl → 1 ≤ s.page → s.page ≤ pl + 1 →
      Filled s → pl + 2 - s.page ≤ fuel →
      run pl pl a s (List.replicate fuel []) =
        ([fullSet pl s.imageSize],
          RunEnd.ok ⟨s.windowSize, s.imageSize, pl + 1, List.replicate pl none⟩)
  | 0, _, _, _, hple, _, hfuel => absurd hfuel (by omega)
  | fuel + 1, s, hlen, hp1, hple, hF, hfuel => by
    by_cases hpage : s.page = pl + 1
    · have hb := body_publish pl pl s hpl hlen hpage hF
      rw [List.replicate_succ,
        run_cons_eq pl pl a s s
          ⟨s.windowSize, s.imageSize, s.page, List.replicate pl none⟩ (some s.images)
          [] (List.replicate fuel []) rfl hb,
        run_idle pl pl a hpl fuel
          ⟨s.windowSize, s.imageSize, s.page, List.replicate pl none⟩ hpage rfl,
        images_eq_fullSet pl s hlen hpage hF, hpage]
      rfl
    · have hple2 : s.page ≤ pl := by omega
      obtain ⟨imgs', hb, hlen', hF'⟩ := body_render pl pl s hpl hlen hp1 hple2 rfl hF
      have hCH : CHUNK = 32 := rfl
      have hq1 : s.page ≤ min (s.page + CHUNK - 1) pl := le_min (by omega) (by omega)
      have hq2 : min (s.page + CHUNK - 1) pl ≤ pl := min_le_right _ _
      rw [List.replicate_succ,
        run_cons_eq pl pl a s s
          ⟨s.windowSize, s.imageSize, min (s.page + CHUNK - 1) pl + 1, imgs'⟩ none
          [] (List.replicate fuel []) rfl hb,
        run_render pl a hpl fuel ⟨s.windowSize, s.imageSize, min (s.page + CHUNK - 1) pl + 1, imgs'⟩
          hlen' (by show 1 ≤ min (s.page + CHUNK - 1) pl + 1; omega)
          (by show min (s.page + CHUNK - 1) pl + 1 ≤ pl + 1; omega) hF'
          (by show pl + 2 - (min (s.page + CHUNK - 1) pl + 1) ≤ fuel; omega)]
      rfl

theorem run_pub_empty (npages pl : ℕ) (a : ℚ) (hpl : 1 ≤ pl) :
    ∀ (sched : List (List QItem)) (s : WState), (∀ e ∈ sched, e = []) → Inv pl s →
      ∀ set ∈ (run npages pl a s sched).1, GoodSet pl s.imageSize set
  | [], _, _, _, _, hset => by
    rw [run] at hset
    simp at hset
  | arr :: rest, s, hemp, hInv, set, hset => by
    have harr : arr = [] := hemp arr (by simp)
    subst harr
    rcases hb : body npages pl s with _ | ⟨s2, pub⟩
    · rw [run_cons_crash npages pl a s s [] rest rfl hb] at hset
      simp at hset
    · obtain ⟨hInv2, hsz, hgood⟩ := body_inv npages pl s s2 pub hpl hInv hb
      rw [run_cons_eq npages pl a s s s2 pub [] rest rfl hb] at hset
      rcases List.mem_append.mp hset with hmem | hmem
      · rcases pub with _ | pubset
        · simp at hmem
        · simp only [Option.toList_some, List.mem_singleton] at hmem
          subst hmem
          exact hgood set rfl
      · have hrec := run_pub_empty npages pl a hpl rest s2
          (fun e he => hemp e (List.mem_cons_of_mem _ he)) hInv2 set hmem
        rw [hsz] at hrec
        exact hrec

theorem goodset_eq_fullSet (pl : ℕ) (sz : Option ℚ × Option ℚ) (set : List (Option Img))
    (h : GoodSet pl sz set) : set = fullSet pl sz := by
  apply List.ext_getElem?
  intro n
  rcases lt_or_le n pl with hn | hn
  · rw [h.2 n hn, fullSet, List.getElem?_map, List.getElem?_range hn]
    rfl
  · have h1 : set[n]? = none := List.getElem?_eq_none (by rw [h.1]; omega)
    have h2 : (fullSet pl sz)[n]? = none := List.getElem?_eq_none (by
      rw [fullSet, List.length_map, List.length_range]
      omega)
    rw [h1, h2]

/-- C2: if sizes `S1, S2, S3` are enqueued before the worker completes any
render cycle (the worker starts at `S1`, and `S2, S3` are pending at its first
queue-drain point), the drain adopts the latest size `S3` and restarts page
numbering at 1; running to completion publishes exactly one image set, fully
rendered at the size derived from `S3`; and over any schedule with no further
arrivals, every published set is that `S3` set — never one derived from `S1` or
`S2`. -/
theorem c2_latest_size_wins (a : ℚ) (S1 S2 S3 : ℚ × ℚ) (pl : ℕ) (hpl : 1 ≤ pl) :
    drainQ a (initialState pl a S1) [some S2, some S3] = some (initialState pl a S3) ∧
    run pl pl a (initialState pl a S1) ([some S2, some S3] :: List.replicate (pl + 1) []) =
      ([fullSet pl (winsize2rasterargs S3 a)],
        RunEnd.ok ⟨S3, winsize2rasterargs S3 a, pl + 1, List.replicate pl none⟩) ∧
    ∀ k : ℕ, ∀ set ∈ (run pl pl a (initialState pl a S1)
        ([some S2, some S3] :: List.replicate k [])).1,
      set = fullSet pl (winsize2rasterargs S3 a) := by
  have hd : drainQ a (initialState pl a S1) [some S2, some S3]
      = some (initialState pl a S3) := rfl
  have hlen0 : (initialState pl a S3).images.length = pl := by
    simp [initialState]
  have hF0 : Filled (initialState pl a S3) := fun i hi =>
    absurd (show i < 1 - 1 from hi) (by omega)
  obtain ⟨imgs', hb, hlen', hF'⟩ :=
    body_render pl pl (initialState pl a S3) hpl hlen0 (le_refl 1)
      (show (1 : ℕ) ≤ pl from hpl) rfl hF0
  have hCH : CHUNK = 32 := rfl
  have hq1 : 1 ≤ min ((initialState pl a S3).page + CHUNK - 1) pl :=
    le_min (show 1 ≤ (initialState pl a S3).page + CHUNK - 1 by
      show 1 ≤ 1 + CHUNK - 1
      omega) hpl
  have hq2 : min ((initialState pl a S3).page + CHUNK - 1) pl ≤ pl := min_le_right _ _
  refine ⟨hd, ?_, ?_⟩
  · rw [run_cons_eq pl pl a (initialState pl a S1) (initialState pl a S3)
        ⟨(initialState pl a S3).windowSize, (initialState pl a S3).imageSize,
          min ((initialState pl a S3).page + CHUNK - 1) pl + 1, imgs'⟩ none
        [some S2, some S3] (List.replicate (pl + 1) []) hd hb,
      run_render pl a hpl (pl + 1)
        ⟨(initialState pl a S3).windowSize, (initialState pl a S3).imageSize,
          min ((initialState pl a S3).page + CHUNK - 1) pl + 1, imgs'⟩
        hlen' (by show 1 ≤ min ((initialState pl a S3).page + CHUNK - 1) pl + 1; omega)
        (by show min ((initialState pl a S3).page + CHUNK - 1) pl + 1 ≤ pl + 1; omega) hF'
        (by show pl + 2 - (min ((initialState pl a S3).page + CHUNK - 1) pl + 1) ≤ pl + 1; omega)]
    rfl
  · intro k set hset
    rw [run_cons_eq pl pl a (initialState pl a S1) (initialState pl a S3)
        ⟨(initialState pl a S3).windowSize, (initialState pl a S3).imageSize,
          min ((initialState pl a S3).page + CHUNK - 1) pl + 1, imgs'⟩ none
        [some S2, some S3] (List.replicate k []) hd hb] at hset
    simp only [Option.toList_none, List.nil_append] at hset
    have hInv' : Inv pl ⟨(initialState pl a S3).windowSize, (initialState pl a S3).imageSize,
        min ((initialState pl a S3).page + CHUNK - 1) pl + 1, imgs'⟩ :=
      ⟨hlen', by show 1 ≤ min ((initialState pl a S3).page + CHUNK - 1) pl + 1; omega,
        by show min ((initialState pl a S3).page + CHUNK - 1) pl + 1 ≤ pl + 1; omega,
        Or.inl hF'⟩
    have hgood := run_pub_empty pl pl a hpl (List.replicate k [])
      ⟨(initialState pl a S3).windowSize, (initialState pl a S3).imageSize,
        min ((initialState pl a S3).page + CHUNK - 1) pl + 1, imgs'⟩
      (fun e he => List.eq_of_mem_replicate he) hInv' set hset
    exact goodset_eq_fullSet pl _ set hgood

/-- C2 witness for `c2_latest_size_wins` at `a = 1`, `S1 = (1,1)`, `S2 = (2,1)`,
`S3 = (3,1)`, `pagelimit = 1` (the single-publish conjunct, instantiated). -/
theorem c2_latest_size_wins_witness :
    run 1 1 1 (initialState 1 1 (1, 1)) ([some (2, 1), some (3, 1)] :: List.replicate (1 + 1) []) =
      ([fullSet 1 (winsize2rasterargs (3, 1) 1)],
        RunEnd.ok ⟨(3, 1), winsize2rasterargs (3, 1) 1, 1 + 1, List.replicate 1 none⟩) :=
  (c2_latest_size_wins 1 (1, 1) (2, 1) (3, 1) 1 (le_refl 1)).2.1

/-- C3: every image set the worker passes to the callback has length exactly
`pagelimit`, no `None` placeholder remains, and every slot holds the page
rendered at one single size — for every arrival schedule (runs that crash or
stop publish nothing further). -/
theorem c3_published_sets (npages pl : ℕ) (a : ℚ) (ws : ℚ × ℚ) (sched : List (List QItem))
    (hpl : 1 ≤ pl) :
    ∀ set ∈ (run npages pl a (initialState pl a ws) sched).1,
      ∃ sz, set.length = pl ∧ ∀ i, i < pl → set[i]? = some (some ⟨i + 1, sz, false⟩) := by
  intro set hset
  exact run_good npages pl a hpl sched (initialState pl a ws)
    ⟨by simp [initialState], le_refl 1, by show (1 : ℕ) ≤ pl + 1; omega,
      Or.inl (fun i hi => absurd (show i < 1 - 1 from hi) (by omega))⟩ set hset

/-- C3 witness: a one-page document at `pagelimit = 1`, two idle iterations;
the single published set is complete and single-size. -/
theorem c3_published_sets_witness :
    ∃ sz, [some (⟨1, winsize2rasterargs (1, 2) 1, false⟩ : Img)].length = 1 ∧
      ∀ i, i < 1 → [some (⟨1, winsize2rasterargs (1, 2) 1, false⟩ : Img)][i]?
        = some (some ⟨i + 1, sz, false⟩) :=
  c3_published_sets 1 1 1 (1, 2) [[], []] (le_refl 1)
    [some ⟨1, winsize2rasterargs (1, 2) 1, false⟩]
    (by
      show _ ∈ [[some (⟨1, winsize2rasterargs (1, 2) 1, false⟩ : Img)]]
      exact List.mem_singleton.mpr rfl)

/-- C4: `ThreadedRasterizer.get` returns `None` before any publish; after a
publish of `i0 :: tl` (replacing whatever was stored before), it returns the
stored image for every in-range index, and the Blank Image — `images[0]`
zeroed, keeping its dimensions — for every out-of-range index, in particular
`get (-1)` and `get nslides`. -/
theorem c4_get_semantics (st : TState) (i0 : Img) (tl : List Img) (index : ℤ) :
    TState.get TState.initial index = none ∧
    imagesDone st (i0 :: tl) = some ⟨some (i0 :: tl), some (pointZero i0)⟩ ∧
    TState.get ⟨some (i0 :: tl), some (pointZero i0)⟩ index =
      (if 0 ≤ index ∧ index < ((i0 :: tl).length : ℤ) then (i0 :: tl)[index.toNat]?
        else some (pointZero i0)) ∧
    TState.get ⟨some (i0 :: tl), some (pointZero i0)⟩ (-1) = some (pointZero i0) ∧
    TState.get ⟨some (i0 :: tl), some (pointZero i0)⟩ ((i0 :: tl).length : ℤ)
      = some (pointZero i0) ∧
    ∀ j : ℕ, j < (i0 :: tl).length →
      TState.get ⟨some (i0 :: tl), some (pointZero i0)⟩ (j : ℤ) = (i0 :: tl)[j]? := by
  refine ⟨rfl, rfl, rfl, ?_, ?_, ?_⟩
  · show (if 0 ≤ (-1 : ℤ) ∧ (-1 : ℤ) < ((i0 :: tl).length : ℤ)
        then (i0 :: tl)[(-1 : ℤ).toNat]? else some (pointZero i0)) = some (pointZero i0)
    rw [if_neg (fun h => absurd h.1 (by norm_num))]
  · show (if 0 ≤ ((i0 :: tl).length : ℤ) ∧ ((i0 :: tl).length : ℤ) < ((i0 :: tl).length : ℤ)
        then (i0 :: tl)[((i0 :: tl).length : ℤ).toNat]? else some (pointZero i0))
      = some (pointZero i0)
    rw [if_neg (fun h => absurd h.2 (lt_irrefl _))]
  · intro j hj
    show (if 0 ≤ (j : ℤ) ∧ (j : ℤ) < ((i0 :: tl).length : ℤ)
        then (i0 :: tl)[(j : ℤ).toNat]? else some (pointZero i0)) = (i0 :: tl)[j]?
    rw [if_pos ⟨Int.ofNat_nonneg j, by exact_mod_cast hj⟩, Int.toNat_natCast]

/-- C7: once every page is rendered for the current size (`page = pagelimit + 1`
with all slots filled at the current image size), the next iteration invokes the
callback exactly once with the full set, and the worker then idles: over any
further `k` iterations with an empty queue, no further callback occurs. -/
theorem c7_publish_exactly_once (npages pl : ℕ) (a : ℚ) (s : WState) (k : ℕ) (hpl : 1 ≤ pl)
    (hlen : s.images.length = pl) (hpage : s.page = pl + 1) (hF : Filled s) :
    run npages pl a s (List.replicate (k + 1) []) =
      ([s.images], RunEnd.ok ⟨s.windowSize, s.imageSize, pl + 1, List.replicate pl none⟩) := by
  have hb := body_publish npages pl s hpl hlen hpage hF
  rw [List.replicate_succ,
    run_cons_eq npages pl a s s ⟨s.windowSize, s.imageSize, s.page, List.replicate pl none⟩
      (some s.images) [] (List.replicate k []) rfl hb,
    run_idle npages pl a hpl k ⟨s.windowSize, s.imageSize, s.page, List.replicate pl none⟩
      hpage rfl, hpage]
  rfl

/-- C7 witness: `pagelimit = 1`, one rendered page, two iterations: one publish
then one idle iteration with no further callback. -/
theorem c7_publish_exactly_once_witness :
    run 1 1 1 ⟨(1, 1), (none, none), 2, [some ⟨1, (none, none), false⟩]⟩
        (List.replicate (1 + 1) []) =
      ([[some (⟨1, (none, none), false⟩ : Img)]],
        RunEnd.ok ⟨(1, 1), (none, none), 1 + 1, List.replicate 1 none⟩) :=
  c7_publish_exactly_once 1 1 1 ⟨(1, 1), (none, none), 2, [some ⟨1, (none, none), false⟩]⟩ 1
    (le_refl 1) rfl rfl (by
      intro i hi
      have hi0 : i = 0 := by
        have hi' : i < 2 - 1 := hi
        omega
      subst hi0
      rfl)

/-- C8 (amended): from every worker state inside the drain/render loop, if the
pending queue items at the next drain point are any number of sizes followed by
the stop sentinel, the worker returns within that single drain cycle (before
rendering anything further and regardless of later items or iterations), so the
`join` in `shutdown()` completes.  (The claim's further assertion that this
also holds when the sentinel is the very first item the worker ever receives is
refuted separately: the startup `get` has no sentinel check.) -/
theorem c8_sentinel_stops (npages pl : ℕ) (a : ℚ) (s : WState) (pre : List (ℚ × ℚ))
    (post : List QItem) (rest : List (List QItem)) :
    run npages pl a s ((pre.map some ++ none :: post) :: rest) = ([], RunEnd.stopped) :=
  run_cons_stop npages pl a s _ rest (drainQ_sentinel a post pre s)

/-- C8 counterexample: if `shutdown()` runs before any `push_resize`, the
sentinel `None` is consumed by the worker's initial blocking `size_queue.get()`,
and `_winsize2rasterargs(None, aspect)` raises `TypeError` unpacking `None` —
the worker thread dies with an uncaught exception instead of observing the
sentinel at a queue-drain point and returning. -/
theorem c8_startup_sentinel_cex : workerInit 1 1 none = InitOut.crashed := rfl

/-- C10 (amended): a chunk store stays within the bounds of the images list
whenever the document's page count is at most `pagelimit` (then the decode
returns no pages past the document's end); the claim's assertion that this
holds for every document, including those with more pages than `pagelimit`, is
refuted separately by a concrete out-of-bounds store. -/
theorem c10_write_in_bounds (npages pl page : ℕ) (sz : Option ℚ × Option ℚ)
    (imgs : List (Option Img)) (hlen : imgs.length = pl) (hp : 1 ≤ page) (hnp : npages ≤ pl) :
    writeChunk imgs page (convertChunk npages sz page (page + CHUNK - 1)) ≠ none := by
  rcases Nat.eq_zero_or_pos (min (page + CHUNK - 1) npages + 1 - page) with hm0 | hm0
  · rw [chunk_eq_range, hm0]
    intro hcontra
    rw [show (List.range' page 0).map (fun q => (⟨q, sz, false⟩ : Img)) = [] from rfl,
      writeChunk] at hcontra
    exact Option.noConfusion hcontra
  · have hmr := min_le_right (page + CHUNK - 1) npages
    have hbound : page - 1 + (min (page + CHUNK - 1) npages + 1 - page) ≤ imgs.length := by
      rw [hlen]
      omega
    obtain ⟨imgs', heq, _⟩ := writeChunk_range _ page imgs sz hp hbound
    rw [chunk_eq_range, heq]
    simp

/-- C10 counterexample: a document with 2 pages and `pagelimit = 1` — the first
chunk decode returns pages 1 and 2, and storing page 2 writes `images[1]` in a
length-1 list: `IndexError`, modelled by the worker body returning `none`. -/
theorem c10_oob_cex : body 2 1 ⟨(1, 1), (none, none), 1, [none]⟩ = none := rfl

/-- C10 witness for `c10_write_in_bounds`: a 1-page document at
`pagelimit = 1`. -/
theorem c10_write_in_bounds_witness :
    writeChunk [none] 1 (convertChunk 1 (none, none) 1 (1 + CHUNK - 1)) ≠ none :=
  c10_write_in_bounds 1 1 1 (none, none) [none] rfl (le_refl 1) (le_refl 1)

end Raster
